import Mathlib

/-!
Verification development for the Email Assistant backend.

Shallow embedding of the conversation-correlation engine:
* `src/utils/telegramParser.js` — answer parsing and question matching
  (JS strings are modelled as `List Char`, JS objects with integer keys as
  association lists kept in ascending key order, matching JS integer-key
  property enumeration).
* `src/services/email-state.js` — the TTL-bounded per-session state store.
* `src/routes/telegram.js` — the webhook answer-handling flow and the
  question-registration endpoint (route-level `activeEmails` map).
* `src/services/telegram/polling.js` — the polling loop with conflict
  backoff (delays in milliseconds as exact rationals; `Math.random()*1000`
  jitter is an arbitrary rational in `[0, 1000)`).
-/

set_option autoImplicit false

namespace Assistant

/-! ## Generic association-list operations (JS `Map` / plain-object model)

JS `Map.set` / object property assignment replaces the value of an existing
key in place; `Map.delete` removes the entry.  Stores built only through
`setKey` have pairwise distinct keys, so `eraseKey` removing every
occurrence agrees with `Map.delete` on reachable stores. -/

def setKey {κ α : Type} [DecidableEq κ] (k : κ) (v : α) : List (κ × α) → List (κ × α)
  | [] => [(k, v)]
  | (k1, v1) :: rest => if k1 = k then (k, v) :: rest else (k1, v1) :: setKey k v rest

def lookupKey {κ α : Type} [DecidableEq κ] (k : κ) : List (κ × α) → Option α
  | [] => none
  | (k1, v1) :: rest => if k1 = k then some v1 else lookupKey k rest

def eraseKey {κ α : Type} [DecidableEq κ] (k : κ) : List (κ × α) → List (κ × α)
  | [] => []
  | (k1, v1) :: rest => if k1 = k then eraseKey k rest else (k1, v1) :: eraseKey k rest

def countKey {κ α : Type} [DecidableEq κ] (k : κ) : List (κ × α) → Nat
  | [] => 0
  | (k1, _) :: rest => (if k1 = k then 1 else 0) + countKey k rest

/-! ## Character classes of the regex `/^(\d+)(?:[.:\-\)\s]+)?\s*(.+)$/`

`isWsChar` is the JS `\s` class restricted to the characters occurring in
this code base (ASCII whitespace plus NBSP); `isSepChar` is the class
`[.:\-\)\s]`; `isDotChar` is `.` (anything but a line terminator). -/

def isWsChar (c : Char) : Bool :=
  c == ' ' || c == '\t' || c == '\n' || c == '\r' || c == '\x0b' || c == '\x0c' || c == '\u00A0'

def isDigitC (c : Char) : Bool :=
  c.isDigit

def isSepChar (c : Char) : Bool :=
  c == '.' || c == ':' || c == '-' || c == ')' || isWsChar c

def isDotChar (c : Char) : Bool :=
  !(c == '\n' || c == '\r' || c == '\u2028' || c == '\u2029')

/-- Length of the maximal run of characters satisfying `p` at the head. -/
def runLen (p : Char → Bool) (s : List Char) : Nat :=
  (s.takeWhile p).length

/-- Embeds `parseInt(digits, 10)` on an all-digit string. -/
def digitsToNat (ds : List Char) : Nat :=
  ds.foldl (fun acc c => 10 * acc + (c.toNat - 48)) 0

/-- Embeds `String.prototype.trim()`: drop whitespace from both ends. -/
def trimChars (s : List Char) : List Char :=
  ((s.dropWhile isWsChar).reverse.dropWhile isWsChar).reverse

/-- Embeds `String.prototype.split('\n')`. -/
def splitLines : List Char → List (List Char)
  | [] => [[]]
  | c :: rest =>
    match splitLines rest with
    | [] => [[c]]
    | l :: ls => if c = '\n' then [] :: l :: ls else (c :: l) :: ls

/-! ## The regex matcher

`line.trim().match(/^(\d+)(?:[.:\-\)\s]+)?\s*(.+)$/)` with JS backtracking
semantics: each greedy quantifier first consumes its maximal run, then
backtracks one character at a time.  `tryW` resolves `\s*`, `tryJ` resolves
the optional separator group `(?:[.:\-\)\s]+)?` (count `0` is the skipped
group), `tryK` resolves `(\d+)` (at least one digit).  `(.+)$` succeeds on
any non-empty remainder of `.`-class characters and is the second capture. -/

def tryW (rest2 : List Char) : Nat → Option (List Char)
  | 0 =>
    if !rest2.isEmpty && rest2.all isDotChar then some rest2 else none
  | w + 1 =>
    let r3 := rest2.drop (w + 1)
    if !r3.isEmpty && r3.all isDotChar then some r3 else tryW rest2 w

def tryJ (rest1 : List Char) : Nat → Option (List Char)
  | 0 => tryW rest1 (runLen isWsChar rest1)
  | j + 1 =>
    match tryW (rest1.drop (j + 1)) (runLen isWsChar (rest1.drop (j + 1))) with
    | some ans => some ans
    | none => tryJ rest1 j

def tryK (s : List Char) : Nat → Option (Nat × List Char)
  | 0 => none
  | k + 1 =>
    match tryJ (s.drop (k + 1)) (runLen isSepChar (s.drop (k + 1))) with
    | some ans => some (digitsToNat (s.take (k + 1)), ans)
    | none => tryK s k

/-- Whole-line match of `/^(\d+)(?:[.:\-\)\s]+)?\s*(.+)$/`, returning
`(parseInt(match[1], 10), match[2])`. -/
def matchLine (s : List Char) : Option (Nat × List Char) :=
  tryK s (runLen isDigitC s)

/-! ## `parseNumberedAnswers` (src/utils/telegramParser.js)

The answers object has integer keys, which JS enumerates in ascending
numeric order with assignment replacing the value of an existing key;
`insertSorted` realises exactly that. -/

def insertSorted (n : Nat) (v : List Char) : List (Nat × List Char) → List (Nat × List Char)
  | [] => [(n, v)]
  | (m, w) :: rest =>
    if n < m then (n, v) :: (m, w) :: rest
    else if n = m then (n, v) :: rest
    else (m, w) :: insertSorted n v rest

/-- One iteration of the `for (const line of lines)` loop: skip blank lines,
match the regex against the trimmed line, and on a match with a non-empty
trimmed answer record it (the `!isNaN(questionNumber)` test is always true
because `match[1]` is a non-empty digit string). -/
def parseLine (acc : List (Nat × List Char)) (line : List Char) : List (Nat × List Char) :=
  let t := trimChars line
  if t.isEmpty then acc
  else
    match matchLine t with
    | none => acc
    | some (n, ansChars) =>
      let a := trimChars ansChars
      if a.isEmpty then acc else insertSorted n a acc

/-- Embeds `parseNumberedAnswers(messageText)`: `none` models `null`/`undefined`/a
non-string value (the `typeof` guard), the empty list models the falsy empty
string. -/
def parseNumberedAnswers (messageText : Option (List Char)) : List (Nat × List Char) :=
  match messageText with
  | none => []
  | some s => if s.isEmpty then [] else (splitLines s).foldl parseLine []

/-! ## `matchAnswersToQuestions` (src/utils/telegramParser.js)

The result object is keyed by the literal question strings (JS string-key
insertion order, assignment replacing in place: `setKey`).  A looked-up
answer string is truthy iff non-empty. -/

/-- Body of the `questions.forEach((question, index) => ...)` callback:
`answerNumber = index + 1`; record `matchedResult[question] = answers[answerNumber]`
only when the looked-up answer is truthy. -/
def matchStep (ans : List (Nat × List Char)) (acc : List (String × List Char))
    (iq : Nat × String) : List (String × List Char) :=
  match lookupKey (iq.1 + 1) ans with
  | some a => if a.isEmpty then acc else setKey iq.2 a acc
  | none => acc

def matchAnswersToQuestions (questions : Option (List String))
    (answers : Option (List (Nat × List Char))) : List (String × List Char) :=
  match questions, answers with
  | some qs, some ans =>
    if qs.isEmpty then [] else qs.enum.foldl (matchStep ans) []
  | _, _ => []

/-! ## `EmailStateManager` (src/services/email-state.js)

Session ids are the `String(chatId)` keys of the module-level `activeEmails`
map; `timestamp` is the `Date.now()` epoch-milliseconds value injected by
`storeEmail`.  `Option.none` for an argument models a missing/`null` value
and the empty string is the falsy string (the `!chatId` guard rejects both).
Only the fields the state machine touches are modelled. -/

structure EmailData where
  questions : List String
  timestamp : Int
deriving DecidableEq

/-- Embeds `storeEmail(chatId, emailData)` at time `now`: guard on falsy arguments,
stamp `emailData.timestamp = Date.now()`, then `activeEmails.set(String(chatId), ...)`. -/
def storeEmail (chatId : Option String) (emailData : Option EmailData) (now : Int)
    (st : List (String × EmailData)) : List (String × EmailData) :=
  match chatId, emailData with
  | some c, some d => if c = "" then st else setKey c { d with timestamp := now } st
  | _, _ => st

/-- The 24-hour retention window, in milliseconds. -/
def expiryMs : Int := 24 * 60 * 60 * 1000

/-- Embeds `getEmail(chatId)` at time `now`: returns the result together with the
store after the call (lazy expiry deletes an entry older than 24 hours). -/
def getEmail (chatId : Option String) (now : Int) (st : List (String × EmailData)) :
    Option EmailData × List (String × EmailData) :=
  match chatId with
  | none => (none, st)
  | some c =>
    if c = "" then (none, st)
    else
      match lookupKey c st with
      | none => (none, st)
      | some d =>
        if expiryMs < now - d.timestamp then (none, eraseKey c st) else (some d, st)

/-- Embeds `clearEmail(chatId)`. -/
def clearEmail (chatId : Option String) (st : List (String × EmailData)) :
    List (String × EmailData) :=
  match chatId with
  | none => st
  | some c => if c = "" then st else eraseKey c st

/-- Embeds `listActiveEmails()`: one `(chatId, timestamp)` row per stored entry (the
debug listing also renders subject and age, derived from the same fields). -/
def listActiveEmails (st : List (String × EmailData)) : List (String × Int) :=
  st.map (fun p => (p.1, p.2.timestamp))

/-! ## The webhook answer-handling flow (src/routes/telegram.js)

The route-level `activeEmails` map is keyed by the raw JS value of the chat
id: the webhook uses `update.message.chat.id` (a number), while the
registration endpoint uses `req.body.chatId` (whatever the JSON body held).
`JKey` models those values; `Map.get`/`Map.set` compare keys with
SameValueZero, i.e. structural equality on `JKey`. -/

inductive JKey where
  | str (s : String)
  | num (n : Int)
deriving DecidableEq

/-- JS truthiness of a chat-id value (`!chatId`). -/
def jkeyTruthy : JKey → Bool
  | .str s => !(s == "")
  | .num n => !(n == 0)

structure OriginalEmail where
  subject : String
  body : String
  sender : String
  threadId : String
deriving DecidableEq

structure ActiveEmailData where
  originalEmail : OriginalEmail
  questions : List String
deriving DecidableEq

/-- Embeds `POST /send-email-questions`: validate `chatId`, a non-empty `questions`
array and `email`, then `activeEmails.set(chatId, {originalEmail, questions, ...})`.
Returns the updated store and whether the request was accepted (else 400). -/
def registerEmailQuestions (chatId : Option JKey) (questions : Option (List String))
    (email : Option OriginalEmail) (st : List (JKey × ActiveEmailData)) :
    List (JKey × ActiveEmailData) × Bool :=
  match chatId, questions, email with
  | some c, some qs, some e =>
    if !jkeyTruthy c || qs.isEmpty then (st, false)
    else (setKey c { originalEmail := e, questions := qs } st, true)
  | _, _, _ => (st, false)

/-- Success/failure of each awaited collaborator call in the webhook
answer-handling flow; `true` means the call returns normally, `false` means
it throws. -/
structure FlowOutcomes where
  genOk : Bool
  sendReplyOk : Bool
  createDraftOk : Bool
  notifySavedOk : Bool
  warnOk : Bool
deriving DecidableEq

inductive MsgKind where
  | draftReply
  | draftSaved
  | draftWarn
  | genError
  | noActiveEmail
deriving DecidableEq

inductive Event where
  | genCall
  | send (k : MsgKind)
  | draftSaveCall
  | clearState
deriving DecidableEq

/-- The answer-branch of `POST /webhook` (lines 74–183): look up
`activeEmails.get(chatId)`; if absent send the "no active email" notice,
otherwise run the try block: generate the reply, send it, attempt the Gmail
draft inside its own try/catch (a failure there sends a warning), then
`activeEmails.delete(chatId)`.  Any throw escaping the outer try is caught
at line 159, which sends the generation-error notice and skips the delete.
The `emailData.questions` guard always passes for registered entries because
a JS array is truthy.  Returns the store after the request together with the
trace of collaborator calls (`send` events are attempts; a failed send is
the attempt that threw). -/
def handleAnswerMessage (st : List (JKey × ActiveEmailData)) (chatId : JKey)
    (oc : FlowOutcomes) : List (JKey × ActiveEmailData) × List Event :=
  match lookupKey chatId st with
  | none => (st, [Event.send MsgKind.noActiveEmail])
  | some _ =>
    if oc.genOk = false then
      (st, [Event.genCall, Event.send MsgKind.genError])
    else if oc.sendReplyOk = false then
      (st, [Event.genCall, Event.send MsgKind.draftReply, Event.send MsgKind.genError])
    else if oc.createDraftOk then
      if oc.notifySavedOk then
        (eraseKey chatId st,
         [Event.genCall, Event.send MsgKind.draftReply, Event.draftSaveCall,
          Event.send MsgKind.draftSaved, Event.clearState])
      else if oc.warnOk then
        (eraseKey chatId st,
         [Event.genCall, Event.send MsgKind.draftReply, Event.draftSaveCall,
          Event.send MsgKind.draftSaved, Event.send MsgKind.draftWarn, Event.clearState])
      else
        (st,
         [Event.genCall, Event.send MsgKind.draftReply, Event.draftSaveCall,
          Event.send MsgKind.draftSaved, Event.send MsgKind.draftWarn,
          Event.send MsgKind.genError])
    else if oc.warnOk then
      (eraseKey chatId st,
       [Event.genCall, Event.send MsgKind.draftReply, Event.draftSaveCall,
        Event.send MsgKind.draftWarn, Event.clearState])
    else
      (st,
       [Event.genCall, Event.send MsgKind.draftReply, Event.draftSaveCall,
        Event.send MsgKind.draftWarn, Event.send MsgKind.genError])

/-! ## The polling loop (src/services/telegram/polling.js)

Delays are epoch milliseconds as exact rationals (IEEE doubles are exact on
every value this code produces), `jitter` stands for `Math.random() * 1000`.
`pollOnceStep` is one run of `pollOnce` given the outcome of `getUpdates()`;
the returned `PollNext` says what `pollOnce` leaves behind: a `setTimeout`
for the given delay, or nothing (`stopped`). -/

structure PollState where
  isPollingActive : Bool
  retryCount : Nat
  retryDelay : ℚ
deriving DecidableEq

inductive FetchResult where
  | success
  | conflict
  | otherError
deriving DecidableEq

inductive PollNext where
  | scheduled (delay : ℚ)
  | stopped
deriving DecidableEq

/-- The state `startPolling` begins from: active, zero retries, 5-second
base delay. -/
def initPollState : PollState :=
  { isPollingActive := true, retryCount := 0, retryDelay := 5000 }

/-- One execution of `pollOnce` (lines 44–109): bail out if inactive; on a
successful fetch reset the counters and schedule the regular interval; on a
conflict error increment the counter, set
`retryDelay = min(60000, retryDelay * 1.5) + jitter`, stop for good past 10
retries, otherwise schedule the new delay; any other error reschedules the
regular interval unchanged. -/
def pollOnceStep (st : PollState) (r : FetchResult) (jitter interval : ℚ) :
    PollState × PollNext :=
  if st.isPollingActive = false then (st, PollNext.stopped)
  else
    match r with
    | .success =>
      ({ isPollingActive := st.isPollingActive, retryCount := 0, retryDelay := 5000 },
       PollNext.scheduled interval)
    | .conflict =>
      let rc := st.retryCount + 1
      let d := min 60000 (st.retryDelay * (3 / 2)) + jitter
      if rc > 10 then
        ({ isPollingActive := false, retryCount := rc, retryDelay := d }, PollNext.stopped)
      else
        ({ isPollingActive := st.isPollingActive, retryCount := rc, retryDelay := d },
         PollNext.scheduled d)
    | .otherError => (st, PollNext.scheduled interval)

/-- Iterate `pollOnceStep` over a sequence of conflict outcomes with the
given jitters (interval argument irrelevant on the conflict path). -/
def conflictRun (st : PollState) : List ℚ → PollState
  | [] => st
  | j :: js => conflictRun (pollOnceStep st FetchResult.conflict j 5000).1 js

/-- The de-jittered delay the next conflict would schedule from `st`:
`min(60000, retryDelay * 1.5)`. -/
def dejitter (st : PollState) : ℚ :=
  min 60000 (st.retryDelay * (3 / 2))

/-! ## Per-update dispatch inside a batch (src/services/telegram/polling.js, lines 58–70)

Each update is dispatched inside its own try/catch: a throwing
`handleUpdate` only logs.  `ok u = false` models `handleUpdate(u)` throwing. -/

inductive DispatchEvent where
  | attempted (u : Nat)
  | errorLogged (u : Nat)
deriving DecidableEq

/-- The `for (const update of updates)` loop over a fetched batch. -/
def processUpdates (ok : Nat → Bool) : List Nat → List DispatchEvent
  | [] => []
  | u :: rest =>
    (if ok u then [DispatchEvent.attempted u]
     else [DispatchEvent.attempted u, DispatchEvent.errorLogged u]) ++ processUpdates ok rest

/-- The updates whose dispatch was attempted, in order. -/
def attemptedUpdates (evs : List DispatchEvent) : List Nat :=
  evs.filterMap (fun e =>
    match e with
    | .attempted u => some u
    | .errorLogged _ => none)

/-! ## Association-list lemmas -/

theorem lookupKey_setKey {κ α : Type} [DecidableEq κ] (k k1 : κ) (v : α)
    (l : List (κ × α)) :
    lookupKey k (setKey k1 v l) = if k1 = k then some v else lookupKey k l := by
  induction l with
  | nil => by_cases h : k1 = k <;> simp [setKey, lookupKey, h]
  | cons p rest ih =>
    obtain ⟨k2, v2⟩ := p
    by_cases h : k2 = k1
    · subst h
      by_cases h2 : k2 = k <;> simp [setKey, lookupKey, h2]
    · by_cases h2 : k2 = k
      · subst h2
        have h3 : k1 ≠ k2 := fun hc => h hc.symm
        simp [setKey, lookupKey, h, h3]
      · simp [setKey, lookupKey, h, h2, ih]

theorem lookupKey_eraseKey_self {κ α : Type} [DecidableEq κ] (k : κ) (l : List (κ × α)) :
    lookupKey k (eraseKey k l) = none := by
  induction l with
  | nil => simp [eraseKey, lookupKey]
  | cons p rest ih =>
    obtain ⟨k2, v2⟩ := p
    by_cases h : k2 = k <;> simp [eraseKey, lookupKey, h, ih]

theorem mem_map_fst_setKey {κ α : Type} [DecidableEq κ] {a k : κ} {v : α}
    {l : List (κ × α)} (h : a ∈ (setKey k v l).map Prod.fst) :
    a = k ∨ a ∈ l.map Prod.fst := by
  induction l with
  | nil => simpa [setKey] using h
  | cons p rest ih =>
    obtain ⟨k2, v2⟩ := p
    by_cases hk : k2 = k
    · subst hk
      rcases (by simpa [setKey] using h : a = k2 ∨ a ∈ rest.map Prod.fst) with h1 | h1
      · exact Or.inl h1
      · exact Or.inr (by simp [h1])
    · rcases (by simpa [setKey, hk] using h : a = k2 ∨ a ∈ (setKey k v rest).map Prod.fst)
        with h1 | h1
      · exact Or.inr (by simp [h1])
      · rcases ih h1 with h2 | h2
        · exact Or.inl h2
        · exact Or.inr (by simp [h2])

theorem nodup_map_fst_setKey {κ α : Type} [DecidableEq κ] {k : κ} {v : α}
    {l : List (κ × α)} (h : (l.map Prod.fst).Nodup) :
    ((setKey k v l).map Prod.fst).Nodup := by
  induction l with
  | nil => simp [setKey]
  | cons p rest ih =>
    obtain ⟨k2, v2⟩ := p
    rw [List.map_cons, List.nodup_cons] at h
    by_cases hk : k2 = k
    · subst hk
      simpa [setKey] using h
    · rw [setKey, if_neg hk, List.map_cons, List.nodup_cons]
      refine ⟨fun hmem => ?_, ih h.2⟩
      rcases mem_map_fst_setKey hmem with h1 | h1
      · exact hk h1
      · exact h.1 h1

theorem countKey_eq_zero {κ α : Type} [DecidableEq κ] {k : κ} {l : List (κ × α)}
    (h : k ∉ l.map Prod.fst) : countKey k l = 0 := by
  induction l with
  | nil => simp [countKey]
  | cons p rest ih =>
    obtain ⟨k2, v2⟩ := p
    simp only [List.map_cons, List.mem_cons, not_or] at h
    have : k2 ≠ k := fun hc => h.1 hc.symm
    simp [countKey, this, ih h.2]

theorem countKey_setKey {κ α : Type} [DecidableEq κ] {k : κ} {v : α}
    {l : List (κ × α)} (h : (l.map Prod.fst).Nodup) :
    countKey k (setKey k v l) = 1 := by
  induction l with
  | nil => simp [setKey, countKey]
  | cons p rest ih =>
    obtain ⟨k2, v2⟩ := p
    rw [List.map_cons, List.nodup_cons] at h
    by_cases hk : k2 = k
    · subst hk
      simp [setKey, countKey, countKey_eq_zero h.1]
    · simp [setKey, hk, countKey, ih h.2]

theorem filter_key_eq_nil {κ α : Type} [DecidableEq κ] {k : κ} {l : List (κ × α)}
    (h : k ∉ l.map Prod.fst) : l.filter (fun p => decide (p.1 = k)) = [] := by
  induction l with
  | nil => simp
  | cons p rest ih =>
    obtain ⟨k2, v2⟩ := p
    simp only [List.map_cons, List.mem_cons, not_or] at h
    have : k2 ≠ k := fun hc => h.1 hc.symm
    simp [List.filter, this, ih h.2]

theorem filter_key_setKey {κ α : Type} [DecidableEq κ] {k : κ} {v : α}
    {l : List (κ × α)} (h : (l.map Prod.fst).Nodup) :
    (setKey k v l).filter (fun p => decide (p.1 = k)) = [(k, v)] := by
  induction l with
  | nil => simp [setKey]
  | cons p rest ih =>
    obtain ⟨k2, v2⟩ := p
    rw [List.map_cons, List.nodup_cons] at h
    by_cases hk : k2 = k
    · subst hk
      simp [setKey, List.filter, filter_key_eq_nil h.1]
    · simp [setKey, hk, List.filter, ih h.2]

/-! ## Character-class lemmas -/

theorem ws_not_digit {c : Char} (h : isWsChar c = true) : isDigitC c = false := by
  simp only [isWsChar, Bool.or_eq_true, beq_iff_eq] at h
  rcases h with (((((h | h) | h) | h) | h) | h) | h <;> subst h <;> decide

theorem sep_not_digit {c : Char} (h : isSepChar c = true) : isDigitC c = false := by
  simp only [isSepChar, Bool.or_eq_true, beq_iff_eq] at h
  rcases h with ((((h | h) | h) | h) | h)
  · subst h; decide
  · subst h; decide
  · subst h; decide
  · subst h; decide
  · exact ws_not_digit h

theorem digit_not_ws {c : Char} (h : isDigitC c = true) : isWsChar c = false := by
  cases hw : isWsChar c
  · rfl
  · rw [ws_not_digit hw] at h
    exact absurd h (by simp)

theorem digit_not_sep {c : Char} (h : isDigitC c = true) : isSepChar c = false := by
  cases hs : isSepChar c
  · rfl
  · rw [sep_not_digit hs] at h
    exact absurd h (by simp)

theorem ws_sep {c : Char} (h : isWsChar c = true) : isSepChar c = true := by
  simp [isSepChar, h]

theorem not_ws_of_not_sep {c : Char} (h : isSepChar c = false) : isWsChar c = false := by
  cases hw : isWsChar c
  · rfl
  · rw [ws_sep hw] at h
    exact absurd h (by simp)

theorem digit_isDot {c : Char} (h : isDigitC c = true) : isDotChar c = true := by
  have h1 : c ≠ '\n' := by rintro rfl; exact absurd h (by decide)
  have h2 : c ≠ '\r' := by rintro rfl; exact absurd h (by decide)
  have h3 : c ≠ ' ' := by rintro rfl; exact absurd h (by decide)
  have h4 : c ≠ ' ' := by rintro rfl; exact absurd h (by decide)
  simp [isDotChar, h1, h2, h3, h4]

theorem digit_ne_newline {c : Char} (h : isDigitC c = true) : c ≠ '\n' := by
  rintro rfl; exact absurd h (by decide)

theorem dot_ne_newline {c : Char} (h : isDotChar c = true) : c ≠ '\n' := by
  rintro rfl; exact absurd h (by decide)

/-! ## Run-length, trim and line-splitting lemmas -/

theorem runLen_eq_of_all {p : Char → Bool} (xs ys : List Char)
    (hx : ∀ c ∈ xs, p c = true) (hy : ∀ c ∈ ys.take 1, p c = false) :
    runLen p (xs ++ ys) = xs.length := by
  induction xs with
  | nil =>
    cases ys with
    | nil => simp [runLen]
    | cons a t =>
      have ha : p a = false := hy a (by simp)
      rw [List.nil_append, runLen, List.takeWhile_cons_of_neg (by simp [ha])]
  | cons a t ih =>
    have ha : p a = true := hx a (by simp)
    have ih2 := ih (fun c hc => hx c (by simp [hc]))
    simp only [runLen] at ih2 ⊢
    rw [List.cons_append, List.takeWhile_cons_of_pos ha, List.length_cons, ih2,
      List.length_cons]

theorem runLen_all {p : Char → Bool} (s : List Char) (h : ∀ c ∈ s, p c = true) :
    runLen p s = s.length := by
  have := runLen_eq_of_all s [] h (by simp)
  simpa using this

theorem dropWhile_head_false {p : Char → Bool} {l : List Char}
    (h : ∀ c ∈ l.take 1, p c = false) : l.dropWhile p = l := by
  cases l with
  | nil => simp
  | cons a t =>
    have ha : p a = false := h a (by simp)
    simp [List.dropWhile_cons, ha]

theorem trimChars_eq_self {l : List Char}
    (h1 : ∀ c ∈ l.take 1, isWsChar c = false)
    (h2 : ∀ c ∈ l.reverse.take 1, isWsChar c = false) : trimChars l = l := by
  rw [trimChars, dropWhile_head_false h1, dropWhile_head_false h2, List.reverse_reverse]

theorem take_one_append {xs ys : List Char} (h : xs ≠ []) :
    (xs ++ ys).take 1 = xs.take 1 := by
  cases xs with
  | nil => exact absurd rfl h
  | cons a t => simp

theorem splitLines_ne_nil (s : List Char) : splitLines s ≠ [] := by
  cases s with
  | nil => simp [splitLines]
  | cons c rest =>
    simp only [splitLines]
    cases hs : splitLines rest with
    | nil => simp
    | cons l ls => by_cases hc : c = '\n' <;> simp [hc]

theorem splitLines_no_newline {s : List Char} (h : '\n' ∉ s) : splitLines s = [s] := by
  induction s with
  | nil => simp [splitLines]
  | cons c rest ih =>
    simp only [List.mem_cons, not_or] at h
    have hc : c ≠ '\n' := fun hcc => h.1 hcc.symm
    simp only [splitLines, ih h.2]
    simp [hc]

theorem splitLines_append {s1 s2 : List Char} (h : '\n' ∉ s1) :
    splitLines (s1 ++ '\n' :: s2) = s1 :: splitLines s2 := by
  induction s1 with
  | nil =>
    cases hs : splitLines s2 with
    | nil => exact absurd hs (splitLines_ne_nil s2)
    | cons l ls =>
      rw [List.nil_append]
      simp only [splitLines]
      rw [hs]
      simp
  | cons c rest ih =>
    simp only [List.mem_cons, not_or] at h
    have hc : c ≠ '\n' := fun hcc => h.1 hcc.symm
    rw [List.cons_append]
    simp only [splitLines, ih h.2]
    simp [hc]

/-! ## Matcher evaluation lemmas -/

theorem isEmpty_false_of_ne_nil {α : Type} {l : List α} (h : l ≠ []) :
    l.isEmpty = false := by
  cases l with
  | nil => exact absurd rfl h
  | cons a t => rfl

theorem tryW_zero {rest2 : List Char} (h1 : rest2 ≠ [])
    (h2 : ∀ c ∈ rest2, isDotChar c = true) : tryW rest2 0 = some rest2 := by
  rw [tryW, isEmpty_false_of_ne_nil h1, List.all_eq_true.mpr h2]
  simp

theorem tryJ_append (ps rest2 : List Char) {ans : List Char} (hps : ps ≠ [])
    (hw : tryW rest2 (runLen isWsChar rest2) = some ans) :
    tryJ (ps ++ rest2) ps.length = some ans := by
  obtain ⟨p0, ps1, rfl⟩ := List.exists_cons_of_ne_nil hps
  rw [List.length_cons]
  have hd : ((p0 :: ps1) ++ rest2).drop (ps1.length + 1) = rest2 := by
    simp
  simp only [tryJ, hd, hw]

theorem tryK_append (ds rest1 : List Char) {ans : List Char} (hds : ds ≠ [])
    (hJ : tryJ rest1 (runLen isSepChar rest1) = some ans) :
    tryK (ds ++ rest1) ds.length = some (digitsToNat ds, ans) := by
  obtain ⟨d0, ds1, rfl⟩ := List.exists_cons_of_ne_nil hds
  rw [List.length_cons]
  have hd : ((d0 :: ds1) ++ rest1).drop (ds1.length + 1) = rest1 := by
    simp
  have ht : ((d0 :: ds1) ++ rest1).take (ds1.length + 1) = d0 :: ds1 := by
    simp
  simp only [tryK, hd, ht, hJ]

/-- A well-formed numbered-answer line in the sense of the specification:
digits, then a non-empty separator run, then a non-empty answer that starts
with a non-separator character (so the greedy separator run stops exactly
there) and does not end in whitespace (so the line and the captured answer
are their own trims).  The separator run may not contain the line-split
character `'\n'`. -/
def WFLine (ds ps as : List Char) : Prop :=
  ds ≠ [] ∧ (∀ c ∈ ds, isDigitC c = true) ∧
  ps ≠ [] ∧ (∀ c ∈ ps, isSepChar c = true ∧ c ≠ '\n') ∧
  as ≠ [] ∧ (∀ c ∈ as, isDotChar c = true) ∧
  (∀ c ∈ as.take 1, isSepChar c = false) ∧
  (∀ c ∈ as.reverse.take 1, isWsChar c = false)

theorem matchLine_wf {ds ps as : List Char} (hds : ds ≠ [])
    (hdall : ∀ c ∈ ds, isDigitC c = true) (hps : ps ≠ [])
    (hpall : ∀ c ∈ ps, isSepChar c = true) (has : as ≠ [])
    (haall : ∀ c ∈ as, isDotChar c = true)
    (hhead : ∀ c ∈ as.take 1, isSepChar c = false) :
    matchLine (ds ++ (ps ++ as)) = some (digitsToNat ds, as) := by
  have hrun : runLen isDigitC (ds ++ (ps ++ as)) = ds.length := by
    refine runLen_eq_of_all _ _ hdall ?_
    intro c hc
    rw [take_one_append hps] at hc
    exact sep_not_digit (hpall c (List.take_subset 1 ps hc))
  rw [matchLine, hrun]
  refine tryK_append _ _ hds ?_
  have hsep : runLen isSepChar (ps ++ as) = ps.length :=
    runLen_eq_of_all _ _ hpall hhead
  rw [hsep]
  refine tryJ_append _ _ hps ?_
  have hws : runLen isWsChar as = 0 := by
    simpa using runLen_eq_of_all [] as (by simp)
      (fun c hc => not_ws_of_not_sep (hhead c hc))
  rw [hws]
  exact tryW_zero has haall

theorem parseLine_wf {ds ps as : List Char} (acc : List (Nat × List Char))
    (h : WFLine ds ps as) :
    parseLine acc (ds ++ (ps ++ as)) = insertSorted (digitsToNat ds) as acc := by
  obtain ⟨hds, hdall, hps, hpall, has, haall, hhead, hlast⟩ := h
  have hasrev : as.reverse ≠ [] := by simpa using has
  have htrim : trimChars (ds ++ (ps ++ as)) = ds ++ (ps ++ as) := by
    apply trimChars_eq_self
    · intro c hc
      rw [take_one_append hds] at hc
      exact digit_not_ws (hdall c (List.take_subset 1 ds hc))
    · intro c hc
      rw [List.reverse_append, List.reverse_append, List.append_assoc,
        take_one_append hasrev] at hc
      exact hlast c hc
  have hne : (ds ++ (ps ++ as)) ≠ [] := by
    intro hnil
    exact hds (List.append_eq_nil.mp hnil).1
  have hmatch := matchLine_wf hds hdall hps (fun c hc => (hpall c hc).1) has haall hhead
  have htrima : trimChars as = as := by
    apply trimChars_eq_self
    · intro c hc
      exact not_ws_of_not_sep (hhead c hc)
    · exact hlast
  simp only [parseLine, htrim, isEmpty_false_of_ne_nil hne, hmatch, htrima,
    isEmpty_false_of_ne_nil has, Bool.false_eq_true, if_false]

theorem wf_no_newline {ds ps as : List Char} (h : WFLine ds ps as) :
    '\n' ∉ ds ++ (ps ++ as) := by
  obtain ⟨hds, hdall, hps, hpall, has, haall, hhead, hlast⟩ := h
  intro hmem
  rcases List.mem_append.mp hmem with hm | hm
  · exact digit_ne_newline (hdall _ hm) rfl
  · rcases List.mem_append.mp hm with hm2 | hm2
    · exact (hpall _ hm2).2 rfl
    · exact dot_ne_newline (haall _ hm2) rfl

theorem parse_wf_single {ds ps as : List Char} (h : WFLine ds ps as) :
    parseNumberedAnswers (some (ds ++ (ps ++ as))) = [(digitsToNat ds, as)] := by
  have hne : (ds ++ (ps ++ as)) ≠ [] := by
    intro hnil
    exact h.1 (List.append_eq_nil.mp hnil).1
  rw [parseNumberedAnswers, isEmpty_false_of_ne_nil hne,
    splitLines_no_newline (wf_no_newline h)]
  simp only [Bool.false_eq_true, if_false, List.foldl_cons, List.foldl_nil]
  rw [parseLine_wf [] h]
  rfl

theorem parse_wf_two {ds1 ps1 as1 ds2 ps2 as2 : List Char}
    (h1 : WFLine ds1 ps1 as1) (h2 : WFLine ds2 ps2 as2)
    (heq : digitsToNat ds1 = digitsToNat ds2) :
    parseNumberedAnswers
      (some ((ds1 ++ (ps1 ++ as1)) ++ '\n' :: (ds2 ++ (ps2 ++ as2)))) =
      [(digitsToNat ds1, as2)] := by
  have hne : ((ds1 ++ (ps1 ++ as1)) ++ '\n' :: (ds2 ++ (ps2 ++ as2))) ≠ [] := by
    intro hnil
    exact h1.1 (List.append_eq_nil.mp (List.append_eq_nil.mp hnil).1).1
  rw [parseNumberedAnswers, isEmpty_false_of_ne_nil hne,
    splitLines_append (wf_no_newline h1),
    splitLines_no_newline (wf_no_newline h2)]
  simp only [Bool.false_eq_true, if_false, List.foldl_cons, List.foldl_nil]
  rw [parseLine_wf [] h1, parseLine_wf _ h2]
  rw [insertSorted, insertSorted, heq]
  simp

theorem parseLine_nondigit {l : List Char} (acc : List (Nat × List Char))
    (h : ∀ c ∈ (trimChars l).take 1, isDigitC c = false) : parseLine acc l = acc := by
  cases ht : (trimChars l).isEmpty with
  | true => simp [parseLine, ht]
  | false =>
    have hrun : runLen isDigitC (trimChars l) = 0 := by
      simpa using runLen_eq_of_all [] (trimChars l) (by simp) h
    simp [parseLine, ht, matchLine, hrun, tryK]

theorem parse_nondigit {l : List Char} (hnl : '\n' ∉ l)
    (h : ∀ c ∈ (trimChars l).take 1, isDigitC c = false) :
    parseNumberedAnswers (some l) = [] := by
  cases hl : l.isEmpty with
  | true => simp [parseNumberedAnswers, hl]
  | false =>
    rw [parseNumberedAnswers, hl, splitLines_no_newline hnl]
    simp only [Bool.false_eq_true, if_false, List.foldl_cons, List.foldl_nil]
    exact parseLine_nondigit [] h

/-! ## Bare digit lines (no separator) -/

theorem matchLine_digits {ds : List Char} {c : Char} (hds : ds ≠ [])
    (hall : ∀ x ∈ ds, isDigitC x = true) (hc : isDigitC c = true) :
    matchLine (ds ++ [c]) = some (digitsToNat ds, [c]) := by
  have hlen : (ds ++ [c]).length = ds.length + 1 := by simp
  have hrun : runLen isDigitC (ds ++ [c]) = ds.length + 1 := by
    rw [runLen_all]
    · exact hlen
    · intro x hx
      rcases List.mem_append.mp hx with h | h
      · exact hall x h
      · simp only [List.mem_singleton] at h
        subst h
        exact hc
  have hd1 : (ds ++ [c]).drop (ds.length + 1) = [] := by
    rw [← hlen, List.drop_length]
  have hJnil : tryJ ([] : List Char) (runLen isSepChar []) = none := by
    simp [runLen, tryJ, tryW]
  have hsep1 : runLen isSepChar [c] = 0 := by
    simpa using runLen_eq_of_all [] [c] (by simp) (by
      intro x hx
      simp only [List.take, List.mem_singleton] at hx
      subst hx
      exact digit_not_sep hc)
  have hws1 : runLen isWsChar [c] = 0 := by
    simpa using runLen_eq_of_all [] [c] (by simp) (by
      intro x hx
      simp only [List.take, List.mem_singleton] at hx
      subst hx
      exact digit_not_ws hc)
  have hJ : tryJ [c] (runLen isSepChar [c]) = some [c] := by
    rw [hsep1]
    simp only [tryJ]
    rw [hws1]
    exact tryW_zero (by simp) (by
      intro x hx
      simp only [List.mem_singleton] at hx
      subst hx
      exact digit_isDot hc)
  calc matchLine (ds ++ [c]) = tryK (ds ++ [c]) (ds.length + 1) := by rw [matchLine, hrun]
    _ = tryK (ds ++ [c]) ds.length := by simp only [tryK, hd1, hJnil]
    _ = some (digitsToNat ds, [c]) := tryK_append ds [c] hds hJ

theorem parseLine_digits (acc : List (Nat × List Char)) {ds : List Char} {c : Char}
    (hds : ds ≠ []) (hall : ∀ x ∈ ds, isDigitC x = true) (hc : isDigitC c = true) :
    parseLine acc (ds ++ [c]) = insertSorted (digitsToNat ds) [c] acc := by
  have htrim : trimChars (ds ++ [c]) = ds ++ [c] := by
    apply trimChars_eq_self
    · intro x hx
      rw [take_one_append hds] at hx
      exact digit_not_ws (hall x (List.take_subset 1 ds hx))
    · intro x hx
      rw [List.reverse_append] at hx
      rw [take_one_append (by simp : ([c].reverse : List Char) ≠ [])] at hx
      simp only [List.reverse_singleton, List.take, List.mem_singleton] at hx
      subst hx
      exact digit_not_ws hc
  have htrimc : trimChars [c] = [c] := by
    apply trimChars_eq_self
    · intro x hx
      simp only [List.take, List.mem_singleton] at hx
      subst hx
      exact digit_not_ws hc
    · intro x hx
      simp only [List.reverse_singleton, List.take, List.mem_singleton] at hx
      subst hx
      exact digit_not_ws hc
  simp only [parseLine, htrim, isEmpty_false_of_ne_nil (by simp : ds ++ [c] ≠ []),
    matchLine_digits hds hall hc, htrimc,
    isEmpty_false_of_ne_nil (by simp : ([c] : List Char) ≠ []),
    Bool.false_eq_true, if_false]

theorem parse_digits {ds : List Char} {c : Char} (hds : ds ≠ [])
    (hall : ∀ x ∈ ds, isDigitC x = true) (hc : isDigitC c = true) :
    parseNumberedAnswers (some (ds ++ [c])) = [(digitsToNat ds, [c])] := by
  have hnl : '\n' ∉ ds ++ [c] := by
    intro hm
    rcases List.mem_append.mp hm with h | h
    · exact digit_ne_newline (hall _ h) rfl
    · simp only [List.mem_singleton] at h
      rw [← h] at hc
      exact absurd hc (by decide)
  rw [parseNumberedAnswers, isEmpty_false_of_ne_nil (by simp : ds ++ [c] ≠ []),
    splitLines_no_newline hnl]
  simp only [Bool.false_eq_true, if_false, List.foldl_cons, List.foldl_nil]
  rw [parseLine_digits [] hds hall hc]
  rfl

/-! ## Claim C3 -/

/-- C3 (counterexample): the claim states that a line not of the form
`<N><sep><answer>` with a **non-empty** separator contributes nothing, but
the regex makes the separator optional: the separator-less line `"1Yes"`
contributes the entry `1 → "Yes"`. -/
theorem C3_counterexample :
    parseNumberedAnswers (some "1Yes".toList) = [(1, "Yes".toList)] := by
  decide

/-- C3 (amended): `parseNumberedAnswers` returns the empty mapping, without
failing, on `null`/non-string (`none`) and empty input; every well-formed
line `<N><sep><answer>` (digits, non-empty separator run, answer not
starting with a separator character) contributes `N ↦ trimmed answer`; a
line whose trimmed form does not start with a digit contributes nothing
(but a separator may also be absent, cf. the counterexample); and when two
well-formed lines carry the same index the later line wins. -/
theorem C3_parse_amended :
    (parseNumberedAnswers none = []
      ∧ parseNumberedAnswers (some []) = [])
    ∧ (∀ ds ps as : List Char, WFLine ds ps as →
        parseNumberedAnswers (some (ds ++ (ps ++ as))) = [(digitsToNat ds, as)])
    ∧ (∀ l : List Char, '\n' ∉ l →
        (∀ c ∈ (trimChars l).take 1, isDigitC c = false) →
        parseNumberedAnswers (some l) = [])
    ∧ (∀ ds1 ps1 as1 ds2 ps2 as2 : List Char,
        WFLine ds1 ps1 as1 → WFLine ds2 ps2 as2 →
        digitsToNat ds1 = digitsToNat ds2 →
        parseNumberedAnswers
          (some ((ds1 ++ (ps1 ++ as1)) ++ '\n' :: (ds2 ++ (ps2 ++ as2)))) =
          [(digitsToNat ds1, as2)]) := by
  refine ⟨⟨rfl, rfl⟩, ?_, ?_, ?_⟩
  · intro ds ps as h
    exact parse_wf_single h
  · intro l hnl h
    exact parse_nondigit hnl h
  · intro ds1 ps1 as1 ds2 ps2 as2 h1 h2 heq
    exact parse_wf_two h1 h2 heq

/-- C3 (witness): the well-formed line `"2. Yes"` parses to `2 ↦ "Yes"`, and
`"1. old"` followed by `"1: new"` resolves to the later answer. -/
theorem C3_witness :
    parseNumberedAnswers (some ("2".toList ++ (". ".toList ++ "Yes".toList))) =
      [(2, "Yes".toList)]
    ∧ parseNumberedAnswers
        (some (("1".toList ++ (". ".toList ++ "old".toList)) ++
          '\n' :: ("1".toList ++ (": ".toList ++ "new".toList)))) =
        [(1, "new".toList)] :=
  ⟨C3_parse_amended.2.1 "2".toList ". ".toList "Yes".toList
      (by unfold WFLine; decide),
   C3_parse_amended.2.2.2 "1".toList ". ".toList "old".toList
      "1".toList ": ".toList "new".toList
      (by unfold WFLine; decide) (by unfold WFLine; decide) rfl⟩

/-! ## Claim C10 -/

/-- C10: a line consisting solely of two or more digits is not ignored:
greedy backtracking gives up the final digit to satisfy `(.+)`, so
`parseNumberedAnswers "123" = {12 ↦ "3"}` and in general a bare digit
string `d₁…dₙ` (`n ≥ 2`) yields `(d₁…dₙ₋₁) ↦ dₙ`. -/
theorem C10_bare_digit_split :
    parseNumberedAnswers (some "123".toList) = [(12, "3".toList)]
    ∧ (∀ (ds : List Char) (c : Char), ds ≠ [] →
        (∀ x ∈ ds, isDigitC x = true) → isDigitC c = true →
        parseNumberedAnswers (some (ds ++ [c])) = [(digitsToNat ds, [c])]) :=
  ⟨by decide, fun ds c hds hall hc => parse_digits hds hall hc⟩

/-- C10 (witness): the general digit-splitting law evaluated on `"12" ++ "3"`. -/
theorem C10_witness :
    parseNumberedAnswers (some (['1', '2'] ++ ['3'])) = [(digitsToNat ['1', '2'], ['3'])] :=
  C10_bare_digit_split.2 ['1', '2'] '3' (by decide) (by decide) (by decide)

/-! ## Claim C5 -/

/-- C5: a `getEmail` read finding an entry stored more than 24 hours earlier
deletes the entry and reports absence, and an immediately repeated read also
reports absence while leaving the store unchanged (lazy expiry; the model
has no background sweep — only `getEmail` removes expired entries). -/
theorem C5_lazy_expiry (st : List (String × EmailData)) (c : String) (d : EmailData)
    (now : Int) (hc : c ≠ "") (hl : lookupKey c st = some d)
    (hexp : expiryMs < now - d.timestamp) :
    (getEmail (some c) now st).1 = none
    ∧ lookupKey c (getEmail (some c) now st).2 = none
    ∧ getEmail (some c) now ((getEmail (some c) now st).2) =
        (none, (getEmail (some c) now st).2) := by
  have hget : getEmail (some c) now st = (none, eraseKey c st) := by
    simp [getEmail, hc, hl, hexp]
  refine ⟨by rw [hget], ?_, ?_⟩
  · rw [hget]
    exact lookupKey_eraseKey_self c st
  · rw [hget]
    simp [getEmail, hc, lookupKey_eraseKey_self c st]

/-- C5 (witness): an entry stamped at time `0` read at `24h + 1ms`. -/
theorem C5_witness :
    (getEmail (some "chat1") 86400001 [("chat1", ⟨["q"], 0⟩)]).1 = none :=
  (C5_lazy_expiry [("chat1", ⟨["q"], 0⟩)] "chat1" ⟨["q"], 0⟩ 86400001
    (by decide) (by decide) (by decide)).1

/-! ## Claim C6 -/

theorem listActiveEmails_filter (c : String) (l : List (String × EmailData)) :
    (listActiveEmails l).filter (fun p => decide (p.1 = c)) =
      (l.filter (fun p => decide (p.1 = c))).map (fun p => (p.1, p.2.timestamp)) := by
  induction l with
  | nil => simp [listActiveEmails]
  | cons p rest ih =>
    obtain ⟨k, v⟩ := p
    by_cases hk : k = c <;> simp [listActiveEmails, List.filter, hk] <;>
      simpa [listActiveEmails] using ih

/-- C6: storing a second state for the same session fully replaces the
first: the store holds exactly one entry for the session, whose payload is
the second state, `getEmail` can only ever return the second question set,
and the debug listing shows the single replaced row; storing with an absent
chat id, an absent state, or the falsy empty-string chat id is a no-op. -/
theorem C6_overwrite (st : List (String × EmailData)) (c : String)
    (d1 d2 : EmailData) (t1 t2 : Int) (hc : c ≠ "")
    (hnd : (st.map Prod.fst).Nodup) :
    lookupKey c (storeEmail (some c) (some d2) t2 (storeEmail (some c) (some d1) t1 st)) =
        some { d2 with timestamp := t2 }
    ∧ countKey c (storeEmail (some c) (some d2) t2
        (storeEmail (some c) (some d1) t1 st)) = 1
    ∧ (∀ (now : Int) (d : EmailData),
        (getEmail (some c) now (storeEmail (some c) (some d2) t2
          (storeEmail (some c) (some d1) t1 st))).1 = some d →
        d.questions = d2.questions)
    ∧ (listActiveEmails (storeEmail (some c) (some d2) t2
        (storeEmail (some c) (some d1) t1 st))).filter (fun p => decide (p.1 = c)) =
        [(c, t2)]
    ∧ (∀ (d : EmailData) (t : Int),
        storeEmail none (some d) t st = st
        ∧ storeEmail (some c) none t st = st
        ∧ storeEmail (some "") (some d) t st = st) := by
  have hstore : storeEmail (some c) (some d2) t2 (storeEmail (some c) (some d1) t1 st) =
      setKey c { d2 with timestamp := t2 } (setKey c { d1 with timestamp := t1 } st) := by
    simp [storeEmail, hc]
  have hnd1 : ((setKey c { d1 with timestamp := t1 } st).map Prod.fst).Nodup :=
    nodup_map_fst_setKey hnd
  have hl : lookupKey c (storeEmail (some c) (some d2) t2
      (storeEmail (some c) (some d1) t1 st)) = some { d2 with timestamp := t2 } := by
    rw [hstore, lookupKey_setKey]
    simp
  refine ⟨hl, ?_, ?_, ?_, ?_⟩
  · rw [hstore]
    exact countKey_setKey hnd1
  · intro now d h
    by_cases hexp : expiryMs < now - ({ d2 with timestamp := t2 } : EmailData).timestamp
    · simp [getEmail, hc, hl, hexp] at h
    · simp [getEmail, hc, hl, hexp] at h
      rw [← h]
  · rw [hstore, listActiveEmails_filter, filter_key_setKey hnd1]
    rfl
  · intro d t
    refine ⟨rfl, rfl, ?_⟩
    simp [storeEmail]

/-- C6 (witness): two stores for `"chat1"` leave exactly the second state. -/
theorem C6_witness :
    lookupKey "chat1" (storeEmail (some "chat1") (some ⟨["new"], 0⟩) 10
      (storeEmail (some "chat1") (some ⟨["old"], 0⟩) 5 [])) = some ⟨["new"], 10⟩ :=
  (C6_overwrite [] "chat1" ⟨["old"], 0⟩ ⟨["new"], 0⟩ 5 10 (by decide) (by simp)).1

/-! ## Claims C1, C7, C9 — the webhook flow -/

/-- Sample email payload for concrete webhook runs. -/
def sampleEmail : OriginalEmail :=
  { subject := "Re: quote", body := "body", sender := "a@b.c", threadId := "t1" }

/-- Sample registered state for concrete webhook runs. -/
def sampleActive : ActiveEmailData :=
  { originalEmail := sampleEmail, questions := ["How much?"] }

/-- C1 (counterexample): generation succeeds (`genOk = true`, the draft-reply
send is attempted) but the outbound send throws (`sendReplyOk = false`):
contrary to the claim, the stored state is *not* cleared — the
`activeEmails.delete` at the end of the try block is skipped and the catch
handler sends the error notice instead. -/
theorem C1_counterexample :
    (handleAnswerMessage [(JKey.num 7, sampleActive)] (JKey.num 7)
        ⟨true, false, true, true, true⟩).1 = [(JKey.num 7, sampleActive)]
    ∧ Event.genCall ∈ (handleAnswerMessage [(JKey.num 7, sampleActive)] (JKey.num 7)
        ⟨true, false, true, true, true⟩).2
    ∧ Event.send MsgKind.draftReply ∈
        (handleAnswerMessage [(JKey.num 7, sampleActive)] (JKey.num 7)
          ⟨true, false, true, true, true⟩).2
    ∧ Event.clearState ∉ (handleAnswerMessage [(JKey.num 7, sampleActive)] (JKey.num 7)
        ⟨true, false, true, true, true⟩).2 := by
  decide

/-- C1 (amended): with a state stored for the session, the flow clears it
exactly when generation **and** the outbound send succeed and the draft
phase does not escape (draft persistence and its success notice succeed, or
the fallback warning send succeeds); in particular a draft-persistence
failure alone still clears.  If generation fails, the state survives
untouched and the flow is exactly "generation attempt, then error notice". -/
theorem C1_clear_condition (st : List (JKey × ActiveEmailData)) (chatId : JKey)
    (oc : FlowOutcomes) (d : ActiveEmailData) (h : lookupKey chatId st = some d) :
    (lookupKey chatId (handleAnswerMessage st chatId oc).1 = none ↔
      oc.genOk = true ∧ oc.sendReplyOk = true ∧
      (oc.createDraftOk = true ∧ oc.notifySavedOk = true ∨ oc.warnOk = true))
    ∧ (Event.clearState ∈ (handleAnswerMessage st chatId oc).2 ↔
      oc.genOk = true ∧ oc.sendReplyOk = true ∧
      (oc.createDraftOk = true ∧ oc.notifySavedOk = true ∨ oc.warnOk = true))
    ∧ (oc.genOk = false →
      handleAnswerMessage st chatId oc = (st, [Event.genCall, Event.send MsgKind.genError])) := by
  obtain ⟨g, s, cd, n, w⟩ := oc
  cases g <;> cases s <;> cases cd <;> cases n <;> cases w <;>
    simp [handleAnswerMessage, h, lookupKey_eraseKey_self]

/-- C1 (witness): a run where only draft persistence fails still clears the
state, and a run with failing generation is exactly the error-notice trace. -/
theorem C1_witness :
    lookupKey (JKey.num 7) (handleAnswerMessage [(JKey.num 7, sampleActive)] (JKey.num 7)
        ⟨true, true, false, true, true⟩).1 = none
    ∧ handleAnswerMessage [(JKey.num 7, sampleActive)] (JKey.num 7)
        ⟨false, true, true, true, true⟩ =
      ([(JKey.num 7, sampleActive)], [Event.genCall, Event.send MsgKind.genError]) :=
  ⟨(C1_clear_condition [(JKey.num 7, sampleActive)] (JKey.num 7)
      ⟨true, true, false, true, true⟩ sampleActive (by decide)).1.mpr
      ⟨rfl, rfl, Or.inr rfl⟩,
   (C1_clear_condition [(JKey.num 7, sampleActive)] (JKey.num 7)
      ⟨false, true, true, true, true⟩ sampleActive (by decide)).2.2 rfl⟩

/-- C7: an answer-candidate update for a session with no stored state
produces exactly one message — the "no active email" notice — and nothing
else: the generator is never called, no draft is attempted, and the store
is returned unchanged. -/
theorem C7_no_active_email (st : List (JKey × ActiveEmailData)) (chatId : JKey)
    (oc : FlowOutcomes) (h : lookupKey chatId st = none) :
    handleAnswerMessage st chatId oc = (st, [Event.send MsgKind.noActiveEmail])
    ∧ Event.genCall ∉ (handleAnswerMessage st chatId oc).2
    ∧ Event.draftSaveCall ∉ (handleAnswerMessage st chatId oc).2
    ∧ (handleAnswerMessage st chatId oc).1 = st := by
  have heq : handleAnswerMessage st chatId oc = (st, [Event.send MsgKind.noActiveEmail]) := by
    simp [handleAnswerMessage, h]
  refine ⟨heq, ?_, ?_, by rw [heq]⟩ <;> rw [heq] <;> simp

/-- C7 (witness): the empty store at a concrete chat id. -/
theorem C7_witness :
    handleAnswerMessage [] (JKey.num 3) ⟨true, true, true, true, true⟩ =
      ([], [Event.send MsgKind.noActiveEmail]) :=
  (C7_no_active_email [] (JKey.num 3) ⟨true, true, true, true, true⟩ (by decide)).1

/-- C9: the route-level map uses strict (SameValueZero) key identity with no
coercion: a string key never equals a numeric key, lookup after registration
succeeds exactly for the identical key, and a question set registered under
the string `"123"` is invisible to the webhook lookup for the number `123`,
which therefore answers with the "no active email" notice. -/
theorem C9_strict_key_identity :
    (∀ (s : String) (n : Int), JKey.str s ≠ JKey.num n)
    ∧ (∀ (k k1 : JKey) (d : ActiveEmailData) (st : List (JKey × ActiveEmailData)),
        lookupKey k (setKey k1 d st) = if k1 = k then some d else lookupKey k st)
    ∧ (∀ (s : String) (n : Int) (qs : List String) (e : OriginalEmail) (oc : FlowOutcomes),
        lookupKey (JKey.num n)
          (registerEmailQuestions (some (JKey.str s)) (some qs) (some e) []).1 = none
        ∧ (qs ≠ [] → s ≠ "" →
            lookupKey (JKey.str s)
              (registerEmailQuestions (some (JKey.str s)) (some qs) (some e) []).1 =
              some { originalEmail := e, questions := qs })
        ∧ handleAnswerMessage
            (registerEmailQuestions (some (JKey.str s)) (some qs) (some e) []).1
            (JKey.num n) oc =
          ((registerEmailQuestions (some (JKey.str s)) (some qs) (some e) []).1,
            [Event.send MsgKind.noActiveEmail])) := by
  refine ⟨fun s n h => JKey.noConfusion h, fun k k1 d st => lookupKey_setKey k k1 d st, ?_⟩
  intro s n qs e oc
  have hnum : ∀ st2 : List (JKey × ActiveEmailData),
      (registerEmailQuestions (some (JKey.str s)) (some qs) (some e) st2).1 = st2 ∨
      (registerEmailQuestions (some (JKey.str s)) (some qs) (some e) st2).1 =
        setKey (JKey.str s) { originalEmail := e, questions := qs } st2 := by
    intro st2
    rw [registerEmailQuestions]
    by_cases hguard : !jkeyTruthy (JKey.str s) || qs.isEmpty
    · simp [hguard]
    · simp [hguard]
  have hlooknum : lookupKey (JKey.num n)
      (registerEmailQuestions (some (JKey.str s)) (some qs) (some e) []).1 = none := by
    rcases hnum [] with h | h
    · rw [h]; rfl
    · rw [h, lookupKey_setKey]
      simp [lookupKey]
  refine ⟨hlooknum, ?_, ?_⟩
  · intro hqs hs
    have hguard : (!jkeyTruthy (JKey.str s) || qs.isEmpty) = false := by
      simp [jkeyTruthy, hs, hqs]
    rw [registerEmailQuestions]
    simp only [hguard, Bool.false_eq_true, if_false]
    rw [lookupKey_setKey]
    simp
  · simp [handleAnswerMessage, hlooknum]

/-- C9 (witness): registration under the string `"123"`, webhook lookup of
the number `123`. -/
theorem C9_witness :
    lookupKey (JKey.num 123)
      (registerEmailQuestions (some (JKey.str "123")) (some ["q"]) (some sampleEmail) []).1 =
      none
    ∧ lookupKey (JKey.str "123")
        (registerEmailQuestions (some (JKey.str "123")) (some ["q"]) (some sampleEmail) []).1 =
        some { originalEmail := sampleEmail, questions := ["q"] } :=
  ⟨(C9_strict_key_identity.2.2 "123" 123 ["q"] sampleEmail
      ⟨true, true, true, true, true⟩).1,
   (C9_strict_key_identity.2.2 "123" 123 ["q"] sampleEmail
      ⟨true, true, true, true, true⟩).2.1 (by decide) (by decide)⟩

/-! ## Claim C8 -/

/-- C8: every update of a fetched batch is dispatched in receipt order no
matter which dispatches throw, and a throwing dispatch in the middle leaves
the processing of the remaining updates unchanged (its exception only adds
an error-log event). -/
theorem C8_per_update_isolation :
    (∀ (ok : Nat → Bool) (updates : List Nat),
        attemptedUpdates (processUpdates ok updates) = updates)
    ∧ (∀ (ok : Nat → Bool) (u : Nat) (us vs : List Nat), ok u = false →
        processUpdates ok (us ++ u :: vs) =
          processUpdates ok us ++
            (DispatchEvent.attempted u :: DispatchEvent.errorLogged u ::
              processUpdates ok vs)) := by
  constructor
  · intro ok updates
    induction updates with
    | nil => rfl
    | cons u rest ih =>
      cases hu : ok u <;>
        simp [processUpdates, hu, attemptedUpdates] <;>
        simpa [attemptedUpdates] using ih
  · intro ok u us vs h
    induction us with
    | nil => simp [processUpdates, h]
    | cons a t ih =>
      cases ha : ok a <;> simp [processUpdates, ha, ih]

/-- C8 (witness): a batch of three updates whose middle dispatch throws. -/
theorem C8_witness :
    attemptedUpdates (processUpdates (fun _ => false) [1, 2, 3]) = [1, 2, 3]
    ∧ processUpdates (fun _ => false) ([1] ++ 2 :: [3]) =
        processUpdates (fun _ => false) [1] ++
          (DispatchEvent.attempted 2 :: DispatchEvent.errorLogged 2 ::
            processUpdates (fun _ => false) [3]) :=
  ⟨C8_per_update_isolation.1 (fun _ => false) [1, 2, 3],
   C8_per_update_isolation.2 (fun _ => false) 2 [1] [3] rfl⟩

/-! ## Claim C2 — polling backoff -/

theorem conflictRun_append (st : PollState) (as bs : List ℚ) :
    conflictRun st (as ++ bs) = conflictRun (conflictRun st as) bs := by
  induction as generalizing st with
  | nil => rfl
  | cons a t ih => simp [conflictRun, ih]

theorem pollOnceStep_inactive (st : PollState) (h : st.isPollingActive = false)
    (r : FetchResult) (j i : ℚ) : pollOnceStep st r j i = (st, PollNext.stopped) := by
  simp [pollOnceStep, h]

theorem pollOnceStep_conflict_active (st : PollState) (j i : ℚ)
    (ha : st.isPollingActive = true) (hrc : st.retryCount < 10) :
    pollOnceStep st FetchResult.conflict j i =
      ({ isPollingActive := true, retryCount := st.retryCount + 1,
         retryDelay := dejitter st + j }, PollNext.scheduled (dejitter st + j)) := by
  have hn : ¬ (st.retryCount + 1 > 10) := by omega
  simp [pollOnceStep, ha, hn, dejitter]

theorem dejitter_nonneg (st : PollState) (hd : 0 ≤ st.retryDelay) : 0 ≤ dejitter st := by
  rw [dejitter]
  refine le_min (by norm_num) (by positivity)

theorem conflictRun_inv (js : List ℚ) (st : PollState) (ha : st.isPollingActive = true)
    (hc : st.retryCount + js.length ≤ 10) (hd : 0 ≤ st.retryDelay)
    (hj : ∀ j ∈ js, 0 ≤ j) :
    (conflictRun st js).isPollingActive = true
    ∧ (conflictRun st js).retryCount = st.retryCount + js.length
    ∧ 0 ≤ (conflictRun st js).retryDelay := by
  induction js generalizing st with
  | nil => exact ⟨ha, by simp [conflictRun], hd⟩
  | cons j t ih =>
    have hj0 : 0 ≤ j := hj j (by simp)
    have hrc : st.retryCount < 10 := by
      simp only [List.length_cons] at hc
      omega
    have hd2 : (0:ℚ) ≤ dejitter st + j := by
      have := dejitter_nonneg st hd
      linarith
    rw [conflictRun, pollOnceStep_conflict_active st j 5000 ha hrc]
    have hrec := ih
      { isPollingActive := true, retryCount := st.retryCount + 1,
        retryDelay := dejitter st + j }
      rfl (by
        show st.retryCount + 1 + t.length ≤ 10
        simp only [List.length_cons] at hc
        omega) hd2
      (fun x hx => hj x (by simp [hx]))
    refine ⟨hrec.1, ?_, hrec.2.2⟩
    rw [hrec.2.1]
    show st.retryCount + 1 + t.length = st.retryCount + (j :: t).length
    simp only [List.length_cons]
    omega

theorem dejitter_record (b : Bool) (rc : Nat) (x : ℚ) :
    dejitter { isPollingActive := b, retryCount := rc, retryDelay := x } =
      min 60000 (x * (3 / 2)) := rfl

/-- C2: eleven consecutive contention errors drive the loop from the initial
polling state to a permanently stopped state (any further `pollOnce` is a
no-op that schedules nothing); along attempts 1–10 the scheduled delay is
`min(60s, previousDelay·1.5) + jitter`, so the de-jittered delay is
non-decreasing and capped at 60s; and a single successful fetch from any
active state resets the counters to the 5-second base. -/
theorem C2_backoff_stop (js : List ℚ) (hlen : js.length = 11)
    (hj : ∀ j ∈ js, 0 ≤ j ∧ j < 1000) :
    (conflictRun initPollState js).isPollingActive = false
    ∧ (∀ (r : FetchResult) (j i : ℚ),
        pollOnceStep (conflictRun initPollState js) r j i =
          (conflictRun initPollState js, PollNext.stopped))
    ∧ (∀ k, k < 10 →
        (conflictRun initPollState (js.take (k + 1))).retryDelay =
          dejitter (conflictRun initPollState (js.take k)) + js.getD k 0
        ∧ (pollOnceStep (conflictRun initPollState (js.take k)) FetchResult.conflict
            (js.getD k 0) 5000).2 =
          PollNext.scheduled
            (dejitter (conflictRun initPollState (js.take k)) + js.getD k 0)
        ∧ dejitter (conflictRun initPollState (js.take k)) ≤
            dejitter (conflictRun initPollState (js.take (k + 1)))
        ∧ dejitter (conflictRun initPollState (js.take k)) ≤ 60000)
    ∧ (∀ (st : PollState) (j i : ℚ), st.isPollingActive = true →
        pollOnceStep st FetchResult.success j i = (initPollState, PollNext.scheduled i)) := by
  have hj0 : ∀ j ∈ js, 0 ≤ j := fun j h => (hj j h).1
  have hstk : ∀ k, k ≤ 10 →
      (conflictRun initPollState (js.take k)).isPollingActive = true
      ∧ (conflictRun initPollState (js.take k)).retryCount = k
      ∧ 0 ≤ (conflictRun initPollState (js.take k)).retryDelay := by
    intro k hk
    have hlt : (js.take k).length = k := by
      rw [List.length_take]
      omega
    have := conflictRun_inv (js.take k) initPollState rfl
      (by simp only [initPollState, hlt]; omega) (by norm_num [initPollState])
      (fun x hx => hj0 x (List.take_subset k js hx))
    exact ⟨this.1, by rw [this.2.1, hlt]; simp [initPollState], this.2.2⟩
  have hgetmem : ∀ k, k < 11 → js.getD k 0 ∈ js := by
    intro k hk
    have h1 : k < js.length := by omega
    obtain ⟨x, hx⟩ : ∃ x, js[k]? = some x := ⟨_, List.getElem?_eq_getElem h1⟩
    have hDx : js.getD k 0 = x := by
      rw [List.getD_eq_getElem?_getD, hx]
      rfl
    rw [hDx]
    exact List.getElem?_mem hx
  have hsplit : ∀ k, k < 11 →
      conflictRun initPollState (js.take (k + 1)) =
        (pollOnceStep (conflictRun initPollState (js.take k)) FetchResult.conflict
          (js.getD k 0) 5000).1 := by
    intro k hk
    have h1 : k < js.length := by omega
    obtain ⟨x, hx⟩ : ∃ x, js[k]? = some x := ⟨_, List.getElem?_eq_getElem h1⟩
    have hDx : js.getD k 0 = x := by
      rw [List.getD_eq_getElem?_getD, hx]
      rfl
    rw [List.take_succ, hx, Option.toList_some, conflictRun_append, hDx]
    rfl
  have hfin : (conflictRun initPollState js).isPollingActive = false := by
    have h10 := hstk 10 (by omega)
    have h11 : js.take 11 = js := by
      rw [← hlen]
      exact List.take_length js
    rw [← h11, hsplit 10 (by omega)]
    simp [pollOnceStep, h10.1, h10.2.1]
  refine ⟨hfin, fun r j i => pollOnceStep_inactive _ hfin r j i, ?_, ?_⟩
  · intro k hk
    have hk10 := hstk k (by omega)
    have hjk : 0 ≤ js.getD k 0 := hj0 _ (hgetmem k (by omega))
    have hrck : (conflictRun initPollState (js.take k)).retryCount < 10 := by
      rw [hk10.2.1]
      omega
    have hstep := pollOnceStep_conflict_active (conflictRun initPollState (js.take k))
      (js.getD k 0) 5000 hk10.1 hrck
    have hS := hsplit k (by omega)
    have hd0 := dejitter_nonneg _ hk10.2.2
    have hcap : dejitter (conflictRun initPollState (js.take k)) ≤ 60000 :=
      min_le_left _ _
    have hnew : conflictRun initPollState (js.take (k + 1)) =
        { isPollingActive := true,
          retryCount := (conflictRun initPollState (js.take k)).retryCount + 1,
          retryDelay := dejitter (conflictRun initPollState (js.take k)) + js.getD k 0 } := by
      rw [hS, hstep]
    have hdej : dejitter (conflictRun initPollState (js.take (k + 1))) =
        min 60000 ((dejitter (conflictRun initPollState (js.take k)) + js.getD k 0) * (3 / 2)) := by
      rw [hnew]
      rfl
    refine ⟨?_, ?_, ?_, hcap⟩
    · rw [hnew]
    · rw [hstep]
    · rw [hdej]
      refine le_min hcap ?_
      linarith
  · intro st j i ha
    simp [pollOnceStep, ha, initPollState]

/-- C2 (witness): eleven zero-jitter conflicts stop the loop for good. -/
theorem C2_witness :
    (conflictRun initPollState (List.replicate 11 (0:ℚ))).isPollingActive = false
    ∧ pollOnceStep (conflictRun initPollState (List.replicate 11 (0:ℚ)))
        FetchResult.conflict 0 5000 =
      (conflictRun initPollState (List.replicate 11 (0:ℚ)), PollNext.stopped) :=
  have h := C2_backoff_stop (List.replicate 11 (0:ℚ)) (by simp)
    (by
      intro j hj
      rw [List.eq_of_mem_replicate hj]
      norm_num)
  ⟨h.1, h.2.1 FetchResult.conflict 0 5000⟩

/-! ## Claim C4 — answer/question correlation -/

theorem matchFold_not_mem (ans : List (Nat × List Char)) (qs : List String)
    (n : Nat) (acc : List (String × List Char)) (q : String) (hq : q ∉ qs) :
    lookupKey q ((qs.enumFrom n).foldl (matchStep ans) acc) = lookupKey q acc := by
  induction qs generalizing n acc with
  | nil => rfl
  | cons q0 rest ih =>
    simp only [List.mem_cons, not_or] at hq
    rw [List.enumFrom_cons, List.foldl_cons, ih (n + 1) _ hq.2]
    simp only [matchStep]
    cases hl : lookupKey (n + 1) ans with
    | none => rfl
    | some a =>
      have hne : q0 ≠ q := fun h => hq.1 h.symm
      by_cases ha : a = []
      · simp [ha]
      · simp [ha, lookupKey_setKey, hne]

theorem matchFold_getD (ans : List (Nat × List Char)) (qs : List String)
    (n : Nat) (acc : List (String × List Char)) (hnd : qs.Nodup)
    (hacc : ∀ q ∈ qs, lookupKey q acc = none) :
    ∀ i, i < qs.length →
      lookupKey (qs.getD i "") ((qs.enumFrom n).foldl (matchStep ans) acc) =
        Option.filter (fun a => !a.isEmpty) (lookupKey (n + i + 1) ans) := by
  induction qs generalizing n acc with
  | nil =>
    intro i hi
    exact absurd hi (by simp)
  | cons q0 rest ih =>
    intro i hi
    obtain ⟨hq0, hnd2⟩ := List.nodup_cons.mp hnd
    rw [List.enumFrom_cons, List.foldl_cons]
    cases i with
    | zero =>
      rw [List.getD_cons_zero, matchFold_not_mem ans rest (n + 1) _ q0 hq0]
      have hz : lookupKey q0 acc = none := hacc q0 (by simp)
      simp only [matchStep]
      cases hl : lookupKey (n + 1) ans with
      | none => simp [hz, Option.filter]
      | some a =>
        by_cases ha : a = []
        · simp [ha, hz, Option.filter]
        · simp [ha, lookupKey_setKey, Option.filter]
    | succ i2 =>
      have hacc2 : ∀ q ∈ rest, lookupKey q (matchStep ans acc (n, q0)) = none := by
        intro q hq
        have hqne : q0 ≠ q := fun h => hq0 (h ▸ hq)
        have hbase := hacc q (by simp [hq])
        simp only [matchStep]
        cases hl : lookupKey (n + 1) ans with
        | none => exact hbase
        | some a =>
          by_cases ha : a = []
          · simpa [ha] using hbase
          · simp [ha, lookupKey_setKey, hqne, hbase]
      have hrec := ih (n + 1) (matchStep ans acc (n, q0)) hnd2 hacc2 i2
        (by simpa using Nat.lt_of_succ_lt_succ hi)
      have harith : n + 1 + i2 + 1 = n + (i2 + 1) + 1 := by omega
      rw [List.getD_cons_succ, hrec, harith]

/-- C4 (counterexample): with duplicate question texts the claimed
pair-inclusion fails — `answerSet[1] = "a"` is present and truthy for the
question at position 0, yet the result holds only the later pair
`("q", "b")`, the position-0 pair having been overwritten. -/
theorem C4_counterexample :
    matchAnswersToQuestions (some ["q", "q"]) (some [(1, ['a']), (2, ['b'])]) =
      [("q", ['b'])]
    ∧ lookupKey 1 [(1, ['a']), (2, ['b'])] = some ['a'] := by
  decide

/-- C4 (amended): restricted to question lists without duplicate texts, the
result's entry for the question at 0-based position `i` is exactly
`answerSet[i+1]` filtered by truthiness (present and non-empty, else the
question is omitted); keys outside the question list never appear (answer
indices with no question are dropped); and invalid inputs — a non-array or
empty question list, or a non-object answer set — give the empty mapping. -/
theorem C4_match_characterization :
    (∀ ans, matchAnswersToQuestions none ans = [])
    ∧ (∀ qs, matchAnswersToQuestions qs none = [])
    ∧ (∀ ans, matchAnswersToQuestions (some []) (some ans) = [])
    ∧ (∀ (qs : List String) (ans : List (Nat × List Char)), qs.Nodup →
        (∀ i, i < qs.length →
          lookupKey (qs.getD i "") (matchAnswersToQuestions (some qs) (some ans)) =
            Option.filter (fun a => !a.isEmpty) (lookupKey (i + 1) ans))
        ∧ (∀ q, q ∉ qs →
            lookupKey q (matchAnswersToQuestions (some qs) (some ans)) = none)) := by
  refine ⟨fun ans => rfl, fun qs => by cases qs <;> rfl, fun ans => rfl, ?_⟩
  intro qs ans hnd
  cases qs with
  | nil =>
    exact ⟨fun i hi => absurd hi (by simp), fun q _ => rfl⟩
  | cons q0 rest =>
    have hne : ((q0 :: rest : List String).isEmpty) = false := rfl
    constructor
    · intro i hi
      have := matchFold_getD ans (q0 :: rest) 0 [] hnd (by intro q _; rfl) i hi
      rw [matchAnswersToQuestions, hne]
      simp only [Bool.false_eq_true, if_false]
      have harith : 0 + i + 1 = i + 1 := by omega
      rw [List.enum_eq_enumFrom, this, harith]
    · intro q hq
      rw [matchAnswersToQuestions, hne]
      simp only [Bool.false_eq_true, if_false]
      rw [List.enum_eq_enumFrom, matchFold_not_mem ans (q0 :: rest) 0 [] q hq]
      rfl

/-- C4 (witness): two distinct questions with only the second answered:
the second maps to its answer, an unknown key maps to nothing. -/
theorem C4_witness :
    lookupKey "q2" (matchAnswersToQuestions (some ["q1", "q2"]) (some [(2, ['b'])])) =
      some ['b']
    ∧ lookupKey "zz" (matchAnswersToQuestions (some ["q1", "q2"]) (some [(2, ['b'])])) =
      none :=
  have h := C4_match_characterization.2.2.2 ["q1", "q2"] [(2, ['b'])] (by decide)
  ⟨h.1 1 (by norm_num), h.2 "zz" (by decide)⟩

end Assistant
